import Mathlib

/-!
Verification of the fan anomaly detection firmware
(`src/main/Fan_Anomaly_Detection.cpp`) against its natural-language
specification.  The C code is shallowly embedded: the SSD1306
framebuffer is a function from byte index to byte value, the audio
capture loop is a step function over an explicit state record, the
inference/render cycle and the periodic report are pure functions over a
metrics record, and the unsynchronized two-task handoff is modelled as
an interleaving semantics over explicit atomic actions.  Machine
integers are modelled by `Int`/`Nat` with explicit truncation
(`% 65536`, `% 256`) where the C code stores into a narrower type;
`float` score comparisons and the throughput division are modelled
over `ℚ`, which preserves the ordering and branch structure of the
source.
-/

/-! ## Framebuffer model (`oled_buffer`, `oled_set_pixel`, lines 53-149)

`OLED_WIDTH = 128`, `OLED_HEIGHT = 64`; the buffer is
`128 * 64 / 8 = 1024` bytes of `uint8_t`, addressed as
`byte_index = x + (y / 8) * OLED_WIDTH`, bit `y % 8`.  A framebuffer
is modelled as `Nat → Nat`; every store goes through the `uint8_t`
truncation so byte values stay below 256. -/

def OLED_WIDTH : Nat := 128

def OLED_HEIGHT : Nat := 64

/-- Framebuffer: byte index ↦ byte value (a `uint8_t`, kept < 256 by
every write). -/
def FB : Type := Nat → Nat

/-- Byte index `x + (y / 8) * OLED_WIDTH` of pixel `(x, y)` (line 142
of the C source; the C `int` arithmetic agrees with the `Nat`
arithmetic because the bounds check has already passed). -/
def pixByte (x y : Int) : Nat := x.toNat + (y.toNat / 8) * OLED_WIDTH

/-- Bit index `y % 8` of pixel `(x, y)` (line 143). -/
def pixBit (y : Int) : Nat := y.toNat % 8

/-- `oled_set_pixel` (lines 140-149): out-of-range coordinates are a
no-op; otherwise set (`|= 1 << bit`) or clear (`&= ~(1 << bit)`) the
single bit, with the `uint8_t` store truncating to 8 bits. -/
def oled_set_pixel (buf : FB) (x y : Int) (isOn : Bool) : FB :=
  if x < 0 ∨ (OLED_WIDTH : Int) ≤ x ∨ y < 0 ∨ (OLED_HEIGHT : Int) ≤ y then buf
  else fun i =>
    if i = pixByte x y then
      if isOn then (buf (pixByte x y) ||| (1 <<< pixBit y)) % 256
      else buf (pixByte x y) &&& (255 ^^^ (1 <<< pixBit y))
    else buf i

/-- Read the bit of pixel `(x, y)` out of a framebuffer. -/
def getPixel (buf : FB) (x y : Int) : Bool :=
  (buf (pixByte x y)).testBit (pixBit y)

/-- `oled_clear_buffer` (lines 132-134): `memset(oled_buffer, 0x00, ...)`. -/
def oled_clear_buffer : FB := fun _ => 0

lemma pixBit_lt_8 (y : Int) : pixBit y < 8 := Nat.mod_lt _ (by norm_num)

/-- Effect of the `|= 1 << k` store (followed by the `uint8_t`
truncation) on bit `m` of the byte. -/
lemma testBit_setByte (a k m : Nat) (hk : k < 8) :
    ((a ||| 1 <<< k) % 256).testBit m
      = if m < 8 then (if m = k then true else a.testBit m) else false := by
  rw [Nat.one_shiftLeft, show (256 : Nat) = 2 ^ 8 by norm_num,
    Nat.testBit_mod_two_pow, Nat.testBit_or, Nat.testBit_two_pow]
  by_cases hm8 : m < 8
  · by_cases hmk : m = k
    · subst hmk; simp [hm8]
    · have hkm : k ≠ m := fun h => hmk h.symm
      simp [hm8, hmk, hkm]
  · have hkm : k ≠ m := by omega
    simp [hm8, hkm]

/-- Effect of the `&= ~(1 << k)` store on bit `m` of the byte (the
mask `255 ^ (1 <<< k)` is the low 8 bits of the C `~(1 << k)`). -/
lemma testBit_clearByte (a k m : Nat) (hk : k < 8) :
    (a &&& (255 ^^^ (1 <<< k))).testBit m
      = if m < 8 then (if m = k then false else a.testBit m) else false := by
  rw [Nat.one_shiftLeft, show (255 : Nat) = 2 ^ 8 - 1 by norm_num,
    Nat.testBit_and, Nat.testBit_xor, Nat.testBit_two_pow_sub_one,
    Nat.testBit_two_pow]
  by_cases hm8 : m < 8
  · by_cases hmk : m = k
    · subst hmk; simp [hm8]
    · have hkm : k ≠ m := fun h => hmk h.symm
      simp [hm8, hmk, hkm]
  · have hkm : k ≠ m := by omega
    simp [hm8, hkm]

lemma testBit_of_lt_256 {a : Nat} (ha : a < 256) {m : Nat} (hm : ¬ m < 8) :
    a.testBit m = false := by
  apply Nat.testBit_eq_false_of_lt
  calc a < 256 := ha
  _ = 2 ^ 8 := by norm_num
  _ ≤ 2 ^ m := Nat.pow_le_pow_right (by norm_num) (by omega)

/-- `(pixByte, pixBit)` is injective for in-range coordinates. -/
lemma pix_inj {x y p q : Int}
    (hx0 : 0 ≤ x) (hx1 : x < 128) (hy0 : 0 ≤ y) (hy1 : y < 64)
    (hp0 : 0 ≤ p) (hp1 : p < 128) (hq0 : 0 ≤ q) (hq1 : q < 64)
    (hb : pixByte x y = pixByte p q) (ht : pixBit y = pixBit q) :
    x = p ∧ y = q := by
  simp only [pixByte, pixBit, OLED_WIDTH] at hb ht
  omega

/-- On in-range coordinates `oled_set_pixel` is the single-byte update
of byte `pixByte x y`. -/
lemma oled_set_pixel_in_range (buf : FB) {x y : Int} (isOn : Bool)
    (hx0 : 0 ≤ x) (hx1 : x < 128) (hy0 : 0 ≤ y) (hy1 : y < 64) (i : Nat) :
    oled_set_pixel buf x y isOn i
      = if i = pixByte x y then
          (if isOn then (buf (pixByte x y) ||| (1 <<< pixBit y)) % 256
           else buf (pixByte x y) &&& (255 ^^^ (1 <<< pixBit y)))
        else buf i := by
  have hrange : ¬ (x < 0 ∨ (OLED_WIDTH : Int) ≤ x ∨ y < 0 ∨ (OLED_HEIGHT : Int) ≤ y) := by
    simp only [OLED_WIDTH, OLED_HEIGHT]
    push_cast
    omega
  unfold oled_set_pixel
  rw [if_neg hrange]

/-- Claim C6: `oled_set_pixel` leaves the framebuffer untouched for
out-of-range coordinates; for in-range coordinates it changes no byte
other than `x + (y/8)*128`, and inside that byte it sets bit `y%8` to
`on` and leaves the other seven bits unchanged. -/
theorem C6_set_pixel_frame_effect (buf : FB) (x y : Int) (isOn : Bool)
    (hb : buf (pixByte x y) < 256) :
    ((x < 0 ∨ 128 ≤ x ∨ y < 0 ∨ 64 ≤ y) → oled_set_pixel buf x y isOn = buf) ∧
    (0 ≤ x → x < 128 → 0 ≤ y → y < 64 →
      (∀ i, i ≠ pixByte x y → oled_set_pixel buf x y isOn i = buf i) ∧
      (oled_set_pixel buf x y isOn (pixByte x y)).testBit (pixBit y) = isOn ∧
      (∀ m, m ≠ pixBit y →
        (oled_set_pixel buf x y isOn (pixByte x y)).testBit m
          = (buf (pixByte x y)).testBit m)) := by
  constructor
  · intro h
    unfold oled_set_pixel
    rw [if_pos]
    simpa [OLED_WIDTH, OLED_HEIGHT] using h
  · intro hx0 hx1 hy0 hy1
    have hbit := pixBit_lt_8 y
    have e := oled_set_pixel_in_range buf isOn hx0 hx1 hy0 hy1
    refine ⟨?_, ?_, ?_⟩
    · intro i hi
      rw [e i, if_neg hi]
    · rw [e (pixByte x y), if_pos rfl]
      cases isOn with
      | true => rw [if_pos rfl, testBit_setByte _ _ _ hbit]; simp [hbit]
      | false => rw [if_neg (by simp), testBit_clearByte _ _ _ hbit]; simp [hbit]
    · intro m hm
      rw [e (pixByte x y), if_pos rfl]
      by_cases hm8 : m < 8
      · cases isOn with
        | true => rw [if_pos rfl, testBit_setByte _ _ _ hbit]; simp [hm8, hm]
        | false => rw [if_neg (by simp), testBit_clearByte _ _ _ hbit]; simp [hm8, hm]
      · have hbuf := testBit_of_lt_256 hb hm8
        cases isOn with
        | true => rw [if_pos rfl, testBit_setByte _ _ _ hbit]; simp [hm8, hbuf]
        | false => rw [if_neg (by simp), testBit_clearByte _ _ _ hbit]; simp [hm8, hbuf]

/-- Witness for C6 at the in-range pixel `(3, 10)` and the out-of-range
pixel check, over the all-zero buffer. -/
theorem C6_set_pixel_frame_effect_witness :
    ((3 : Int) < 0 ∨ 128 ≤ (3 : Int) ∨ (10 : Int) < 0 ∨ 64 ≤ (10 : Int) →
        oled_set_pixel oled_clear_buffer 3 10 true = oled_clear_buffer) ∧
    (0 ≤ (3 : Int) → (3 : Int) < 128 → 0 ≤ (10 : Int) → (10 : Int) < 64 →
      (∀ i, i ≠ pixByte 3 10 →
        oled_set_pixel oled_clear_buffer 3 10 true i = oled_clear_buffer i) ∧
      (oled_set_pixel oled_clear_buffer 3 10 true (pixByte 3 10)).testBit (pixBit 10) = true ∧
      (∀ m, m ≠ pixBit 10 →
        (oled_set_pixel oled_clear_buffer 3 10 true (pixByte 3 10)).testBit m
          = (oled_clear_buffer (pixByte 3 10)).testBit m)) :=
  C6_set_pixel_frame_effect oled_clear_buffer 3 10 true (by decide)

/-! ## Glyph renderer (`font5x7`, `oled_draw_char`, lines 84-170) -/

/-- The 5x7 font table (lines 84-124): 26 letters, space, `!`, ten
digits, `:` — 39 glyphs of 5 column bytes each. -/
def font5x7 : List (List Nat) :=
  [[0x7E, 0x11, 0x11, 0x11, 0x7E],
   [0x7F, 0x49, 0x49, 0x49, 0x36],
   [0x3E, 0x41, 0x41, 0x41, 0x22],
   [0x7F, 0x41, 0x41, 0x22, 0x1C],
   [0x7F, 0x49, 0x49, 0x49, 0x41],
   [0x7F, 0x09, 0x09, 0x09, 0x01],
   [0x3E, 0x41, 0x49, 0x49, 0x7A],
   [0x7F, 0x08, 0x08, 0x08, 0x7F],
   [0x00, 0x41, 0x7F, 0x41, 0x00],
   [0x20, 0x40, 0x41, 0x3F, 0x01],
   [0x7F, 0x08, 0x14, 0x22, 0x41],
   [0x7F, 0x40, 0x40, 0x40, 0x40],
   [0x7F, 0x02, 0x0C, 0x02, 0x7F],
   [0x7F, 0x04, 0x08, 0x10, 0x7F],
   [0x3E, 0x41, 0x41, 0x41, 0x3E],
   [0x7F, 0x09, 0x09, 0x09, 0x06],
   [0x3E, 0x41, 0x51, 0x21, 0x5E],
   [0x7F, 0x09, 0x19, 0x29, 0x46],
   [0x46, 0x49, 0x49, 0x49, 0x31],
   [0x01, 0x01, 0x7F, 0x01, 0x01],
   [0x3F, 0x40, 0x40, 0x40, 0x3F],
   [0x1F, 0x20, 0x40, 0x20, 0x1F],
   [0x3F, 0x40, 0x38, 0x40, 0x3F],
   [0x63, 0x14, 0x08, 0x14, 0x63],
   [0x07, 0x08, 0x70, 0x08, 0x07],
   [0x61, 0x51, 0x49, 0x45, 0x43],
   [0x00, 0x00, 0x00, 0x00, 0x00],
   [0x00, 0x00, 0x5F, 0x00, 0x00],
   [0x3E, 0x51, 0x49, 0x45, 0x3E],
   [0x00, 0x42, 0x7F, 0x40, 0x00],
   [0x42, 0x61, 0x51, 0x49, 0x46],
   [0x21, 0x41, 0x45, 0x4B, 0x31],
   [0x18, 0x14, 0x12, 0x7F, 0x10],
   [0x27, 0x45, 0x45, 0x45, 0x39],
   [0x3C, 0x4A, 0x49, 0x49, 0x30],
   [0x01, 0x71, 0x09, 0x05, 0x03],
   [0x36, 0x49, 0x49, 0x49, 0x36],
   [0x06, 0x49, 0x49, 0x29, 0x1E],
   [0x00, 0x36, 0x36, 0x00, 0x00]]

/-- Column byte `i` of glyph `idx`. -/
def fontCol (idx i : Nat) : Nat := (font5x7.getD idx []).getD i 0

/-- Glyph index selection of `oled_draw_char` (lines 152-158): the
chain of ASCII range tests, `-1` for unsupported characters. -/
def charGlyphIndex (c : Char) : Int :=
  if 65 ≤ c.toNat ∧ c.toNat ≤ 90 then (c.toNat : Int) - 65
  else if 97 ≤ c.toNat ∧ c.toNat ≤ 122 then (c.toNat : Int) - 97
  else if c.toNat = 32 then 26
  else if c.toNat = 33 then 27
  else if 48 ≤ c.toNat ∧ c.toNat ≤ 57 then 28 + ((c.toNat : Int) - 48)
  else if c.toNat = 58 then 38
  else -1

/-- `oled_draw_char` (lines 151-170): look up the glyph; if the
character is unsupported (`index < 0`) return; otherwise for each
column `i < 5` and row `j < 7`, call `oled_set_pixel (x+i) (y+j)` when
bit `j` of column `i` is set. -/
def oled_draw_char (buf : FB) (x y : Int) (c : Char) (isOn : Bool) : FB :=
  let index := charGlyphIndex c
  if index < 0 then buf
  else
    (List.range 5).foldl (fun b i =>
      (List.range 7).foldl (fun b2 j =>
        if (fontCol index.toNat i).testBit j then
          oled_set_pixel b2 (x + (i : Int)) (y + (j : Int)) isOn
        else b2) b) buf

/-- `oled_draw_string` (lines 172-178): draw characters left to right,
advancing x by 6 per character. -/
def oled_draw_string (buf : FB) (x y : Int) (s : List Char) (isOn : Bool) : FB :=
  match s with
  | [] => buf
  | c :: rest => oled_draw_string (oled_draw_char buf x y c isOn) (x + 6) y rest isOn

/-- `getPixel` after an in-range `oled_set_pixel` write: the written
pixel reads back `isOn`; every other in-range pixel is unchanged. -/
lemma getPixel_set_pixel (buf : FB) (x y p q : Int) (isOn : Bool)
    (hp0 : 0 ≤ p) (hp1 : p < 128) (hq0 : 0 ≤ q) (hq1 : q < 64) :
    getPixel (oled_set_pixel buf x y isOn) p q
      = if x = p ∧ y = q then isOn else getPixel buf p q := by
  by_cases hr : x < 0 ∨ (OLED_WIDTH : Int) ≤ x ∨ y < 0 ∨ (OLED_HEIGHT : Int) ≤ y
  · have hxy : ¬ (x = p ∧ y = q) := by
      rintro ⟨rfl, rfl⟩
      simp only [OLED_WIDTH, OLED_HEIGHT] at hr
      push_cast at hr
      omega
    rw [if_neg hxy]
    unfold oled_set_pixel
    rw [if_pos hr]
  · push_neg at hr
    simp only [OLED_WIDTH, OLED_HEIGHT] at hr
    push_cast at hr
    obtain ⟨hx0, hx1, hy0, hy1⟩ := hr
    have e := oled_set_pixel_in_range buf isOn hx0 hx1 hy0 hy1
    have hbit := pixBit_lt_8 y
    have hqbit := pixBit_lt_8 q
    unfold getPixel
    rw [e (pixByte p q)]
    by_cases hB : pixByte p q = pixByte x y
    · rw [if_pos hB]
      by_cases hT : pixBit q = pixBit y
      · have hxy := pix_inj hx0 hx1 hy0 hy1 hp0 hp1 hq0 hq1 hB.symm hT.symm
        rw [if_pos hxy, hT]
        cases isOn with
        | true => rw [if_pos rfl, testBit_setByte _ _ _ hbit]; simp [hbit]
        | false => rw [if_neg (by simp), testBit_clearByte _ _ _ hbit]; simp [hbit]
      · have hxy : ¬ (x = p ∧ y = q) := by
          rintro ⟨rfl, rfl⟩
          exact hT rfl
        rw [if_neg hxy, hB]
        cases isOn with
        | true =>
            rw [if_pos rfl, testBit_setByte _ _ _ hbit]
            simp [hqbit, hT]
        | false =>
            rw [if_neg (by simp), testBit_clearByte _ _ _ hbit]
            simp [hqbit, hT]
    · rw [if_neg hB]
      have hxy : ¬ (x = p ∧ y = q) := by
        rintro ⟨rfl, rfl⟩
        exact hB rfl
      rw [if_neg hxy]

/-- Effect of the inner glyph-row loop (rows `j` with bit `j` of the
column byte set paint pixel `(X, y+j)`). -/
lemma getPixel_inner_fold (js : List Nat) (cond : Nat → Bool) (b : FB)
    (X y p q : Int) (isOn : Bool)
    (hp0 : 0 ≤ p) (hp1 : p < 128) (hq0 : 0 ≤ q) (hq1 : q < 64) :
    getPixel (js.foldl (fun b2 j =>
        if cond j then oled_set_pixel b2 X (y + (j : Int)) isOn else b2) b) p q
      = if ∃ j ∈ js, cond j = true ∧ X = p ∧ y + (j : Int) = q then isOn
        else getPixel b p q := by
  induction js generalizing b with
  | nil => simp
  | cons j js ih =>
      rw [List.foldl_cons, ih]
      by_cases h1 : ∃ j' ∈ js, cond j' = true ∧ X = p ∧ y + (j' : Int) = q
      · rw [if_pos h1, if_pos]
        obtain ⟨j', hj', h⟩ := h1
        exact ⟨j', List.mem_cons_of_mem _ hj', h⟩
      · rw [if_neg h1]
        by_cases hc : cond j = true
        · rw [if_pos hc, getPixel_set_pixel _ _ _ _ _ _ hp0 hp1 hq0 hq1]
          by_cases h2 : X = p ∧ y + (j : Int) = q
          · rw [if_pos h2, if_pos ⟨j, List.mem_cons_self j js, hc, h2⟩]
          · rw [if_neg h2, if_neg]
            rintro ⟨j', hj', hcc, hXp, hyq⟩
            rcases List.mem_cons.mp hj' with rfl | hmem
            · exact h2 ⟨hXp, hyq⟩
            · exact h1 ⟨j', hmem, hcc, hXp, hyq⟩
        · rw [if_neg hc, if_neg]
          rintro ⟨j', hj', hcc, hXp, hyq⟩
          rcases List.mem_cons.mp hj' with rfl | hmem
          · exact hc hcc
          · exact h1 ⟨j', hmem, hcc, hXp, hyq⟩

/-- Effect of the full glyph double loop of `oled_draw_char`. -/
lemma getPixel_outer_fold (is : List Nat) (idx : Nat) (b : FB)
    (x y p q : Int) (isOn : Bool)
    (hp0 : 0 ≤ p) (hp1 : p < 128) (hq0 : 0 ≤ q) (hq1 : q < 64) :
    getPixel (is.foldl (fun b i =>
        (List.range 7).foldl (fun b2 j =>
          if (fontCol idx i).testBit j then
            oled_set_pixel b2 (x + (i : Int)) (y + (j : Int)) isOn
          else b2) b) b) p q
      = if ∃ i ∈ is, ∃ j ∈ List.range 7,
            (fontCol idx i).testBit j = true ∧ x + (i : Int) = p ∧ y + (j : Int) = q
        then isOn else getPixel b p q := by
  induction is generalizing b with
  | nil => simp
  | cons i is ih =>
      rw [List.foldl_cons, ih]
      by_cases h1 : ∃ i' ∈ is, ∃ j ∈ List.range 7,
          (fontCol idx i').testBit j = true ∧ x + (i' : Int) = p ∧ y + (j : Int) = q
      · rw [if_pos h1, if_pos]
        obtain ⟨i', hi', h⟩ := h1
        exact ⟨i', List.mem_cons_of_mem _ hi', h⟩
      · rw [if_neg h1,
          getPixel_inner_fold (List.range 7) ((fontCol idx i).testBit) b
            (x + (i : Int)) y p q isOn hp0 hp1 hq0 hq1]
        by_cases h2 : ∃ j ∈ List.range 7,
            (fontCol idx i).testBit j = true ∧ x + (i : Int) = p ∧ y + (j : Int) = q
        · rw [if_pos h2, if_pos ⟨i, List.mem_cons_self i is, h2⟩]
        · rw [if_neg h2, if_neg]
          rintro ⟨i', hi', h⟩
          rcases List.mem_cons.mp hi' with rfl | hmem
          · exact h2 h
          · exact h1 ⟨i', hmem, h⟩

/-- Claim C7: for an unsupported character `oled_draw_char` changes
nothing; for a supported character (glyph index ≥ 0) the pixel
`(p, q)` reads `isOn` exactly when some glyph column `i < 5` and row
`j < 7` with bit `j` of column byte `i` set lands on `(p, q)`
(`p = x+i`, `q = y+j`), and every other pixel is unchanged. -/
theorem C7_draw_char_glyph (buf : FB) (x y p q : Int) (c : Char) (isOn : Bool)
    (hp0 : 0 ≤ p) (hp1 : p < 128) (hq0 : 0 ≤ q) (hq1 : q < 64) :
    (charGlyphIndex c < 0 → oled_draw_char buf x y c isOn = buf) ∧
    (0 ≤ charGlyphIndex c →
      getPixel (oled_draw_char buf x y c isOn) p q
        = if ∃ i ∈ List.range 5, ∃ j ∈ List.range 7,
              (fontCol (charGlyphIndex c).toNat i).testBit j = true ∧
              x + (i : Int) = p ∧ y + (j : Int) = q
          then isOn else getPixel buf p q) := by
  constructor
  · intro h
    unfold oled_draw_char
    rw [if_pos h]
  · intro h
    unfold oled_draw_char
    rw [if_neg (by omega)]
    exact getPixel_outer_fold (List.range 5) (charGlyphIndex c).toNat buf
      x y p q isOn hp0 hp1 hq0 hq1

/-- Witness for C7: drawing `A` at `(0, 0)` on a cleared buffer; pixel
`(0, 1)` is painted (bit 1 of column byte `0x7E`), matching the glyph
table. -/
theorem C7_draw_char_glyph_witness :
    (charGlyphIndex 'A' < 0 → oled_draw_char oled_clear_buffer 0 0 'A' true = oled_clear_buffer) ∧
    (0 ≤ charGlyphIndex 'A' →
      getPixel (oled_draw_char oled_clear_buffer 0 0 'A' true) 0 1
        = if ∃ i ∈ List.range 5, ∃ j ∈ List.range 7,
              (fontCol (charGlyphIndex 'A').toNat i).testBit j = true ∧
              0 + (i : Int) = 0 ∧ 0 + (j : Int) = 1
          then true else getPixel oled_clear_buffer 0 1) :=
  C7_draw_char_glyph oled_clear_buffer 0 0 0 1 'A' true
    (by decide) (by decide) (by decide) (by decide)

/-! ## Audio capture task (`audio_capture_task`, lines 260-298)

Per accepted raw sample (line 280-289 of the C source):
`inference_buffer[buffer_index++] = (int16_t)(i2s_buffer[i] >> 14);`
and when `buffer_index` reaches `EI_CLASSIFIER_RAW_SAMPLE_COUNT`
(416), `audio_ready = true; buffer_index = 0;`. -/

def EI_CLASSIFIER_RAW_SAMPLE_COUNT : Nat := 416

/-- Two's-complement truncation to `int16_t`: the cast stores the low
16 bits, read back as a signed value in `[-32768, 32767]`. -/
def to_int16 (v : Int) : Int :=
  let r := v % 65536
  if r < 32768 then r else r - 65536

/-- `(int16_t)(raw >> 14)` (line 282): arithmetic right shift by 14
(`Int.shiftRight` shifts arithmetically), then `int16_t` truncation. -/
def convert_sample (raw : Int) : Int := to_int16 (raw >>> (14 : Nat))

/-- State of the capture loop: the shared `inference_buffer`, the fill
index `buffer_index`, and the shared `audio_ready` flag. -/
structure CapState where
  buf : Nat → Int
  idx : Nat
  ready : Bool

/-- One accepted sample of the capture loop body (lines 280-289),
together with the ghost observation of whether this step executed the
`audio_ready = true` hand-off branch. -/
def cap_stepE (s : CapState) (raw : Int) : CapState × Bool :=
  let v := convert_sample raw
  let buf' := fun n => if n = s.idx then v else s.buf n
  let idx' := s.idx + 1
  if EI_CLASSIFIER_RAW_SAMPLE_COUNT ≤ idx' then
    (⟨buf', 0, true⟩, true)
  else
    (⟨buf', idx', s.ready⟩, false)

/-- One accepted sample, state part only. -/
def cap_step (s : CapState) (raw : Int) : CapState := (cap_stepE s raw).1

/-- The capture loop over a stream of accepted raw samples. -/
def cap_run (s : CapState) (raws : List Int) : CapState := raws.foldl cap_step s

/-- The sequence of hand-off events (one Bool per accepted sample). -/
def cap_events (s : CapState) : List Int → List Bool
  | [] => []
  | raw :: raws => (cap_stepE s raw).2 :: cap_events (cap_step s raw) raws

/-- Initial capture state: `buffer_index = 0`, flag clear. -/
def cap_init : CapState := ⟨fun _ => 0, 0, false⟩

lemma cap_step_idx (s : CapState) (raw : Int) (h : s.idx < 416) :
    (cap_step s raw).idx = (s.idx + 1) % 416 := by
  unfold cap_step cap_stepE EI_CLASSIFIER_RAW_SAMPLE_COUNT
  by_cases hfull : 416 ≤ s.idx + 1
  · rw [if_pos hfull]
    show 0 = (s.idx + 1) % 416
    omega
  · rw [if_neg hfull]
    show s.idx + 1 = (s.idx + 1) % 416
    omega

lemma cap_run_idx (raws : List Int) (s : CapState) (h : s.idx < 416) :
    (cap_run s raws).idx = (s.idx + raws.length) % 416 := by
  induction raws generalizing s with
  | nil =>
      show s.idx = (s.idx + 0) % 416
      omega
  | cons raw raws ih =>
      have h' : (cap_step s raw).idx < 416 := by
        rw [cap_step_idx s raw h]
        omega
      have e0 : cap_run s (raw :: raws) = cap_run (cap_step s raw) raws := rfl
      rw [e0, ih (cap_step s raw) h', cap_step_idx s raw h, List.length_cons]
      omega

lemma cap_events_spec (raws : List Int) (s : CapState) (h : s.idx < 416) :
    cap_events s raws
      = (List.range raws.length).map (fun i => decide ((s.idx + i + 1) % 416 = 0)) := by
  induction raws generalizing s with
  | nil => rfl
  | cons raw raws ih =>
      show (cap_stepE s raw).2 :: cap_events (cap_step s raw) raws = _
      rw [ih (cap_step s raw) (by rw [cap_step_idx s raw h]; omega)]
      rw [List.length_cons, List.range_succ_eq_map, List.map_cons, List.map_map]
      congr 1
      · show (if 416 ≤ s.idx + 1 then ((⟨_, 0, true⟩ : CapState), true) else (⟨_, s.idx + 1, s.ready⟩, false)).2
            = decide ((s.idx + 0 + 1) % 416 = 0)
        by_cases hfull : 416 ≤ s.idx + 1
        · rw [if_pos hfull]
          have : (s.idx + 0 + 1) % 416 = 0 := by omega
          simp [this]
        · rw [if_neg hfull]
          have : (s.idx + 0 + 1) % 416 ≠ 0 := by omega
          simp [this]
      · apply List.map_congr_left
        intro i _
        have hstep := cap_step_idx s raw h
        simp only [Function.comp]
        rw [hstep, decide_eq_decide]
        omega

/-- Claim C3: starting from any fill index below 416, the hand-off
branch (`audio_ready = true`) executes at step `i` exactly when
`(idx + i + 1) % 416 = 0` — once every 416 accepted samples, never
early, never twice per window; the fill index after any run is the
accepted count mod 416, and at the hand-off moment the index resets to
0 and the flag is set. -/
theorem C3_window_ready_cadence (s : CapState) (raws : List Int) (x : Int)
    (h : s.idx < 416) :
    (cap_run s raws).idx = (s.idx + raws.length) % 416 ∧
    cap_events s raws
      = (List.range raws.length).map (fun i => decide ((s.idx + i + 1) % 416 = 0)) ∧
    ((cap_stepE s x).2 = true ↔ (s.idx + 1) % 416 = 0) ∧
    ((cap_stepE s x).2 = true → (cap_stepE s x).1.idx = 0) ∧
    ((cap_stepE s x).2 = true → (cap_stepE s x).1.ready = true) := by
  refine ⟨cap_run_idx raws s h, cap_events_spec raws s h, ?_, ?_, ?_⟩ <;>
    · unfold cap_stepE EI_CLASSIFIER_RAW_SAMPLE_COUNT
      by_cases hfull : 416 ≤ s.idx + 1
      · have : (s.idx + 1) % 416 = 0 := by omega
        simp [hfull, this]
      · have : (s.idx + 1) % 416 ≠ 0 := by omega
        simp [hfull, this]

/-- Witness for C3: two accepted samples starting from the initial
state, plus one probe step. -/
theorem C3_window_ready_cadence_witness :
    (cap_run cap_init [16384, 32768]).idx = (cap_init.idx + [16384, 32768].length) % 416 ∧
    cap_events cap_init [16384, 32768]
      = (List.range [16384, 32768].length).map
          (fun i => decide ((cap_init.idx + i + 1) % 416 = 0)) ∧
    ((cap_stepE cap_init 81920).2 = true ↔ (cap_init.idx + 1) % 416 = 0) ∧
    ((cap_stepE cap_init 81920).2 = true → (cap_stepE cap_init 81920).1.idx = 0) ∧
    ((cap_stepE cap_init 81920).2 = true → (cap_stepE cap_init 81920).1.ready = true) :=
  C3_window_ready_cadence cap_init [16384, 32768] 81920 (by decide)

/-- `Int.shiftRight` (the arithmetic shift used to model the C `>>`)
is floor division by the corresponding power of two. -/
lemma int_shiftRight_eq_fdiv (v : Int) (n : Nat) :
    v >>> n = Int.fdiv v ((2 : Int) ^ n) := by
  have h2 : ((2 : Int) ^ n) = ((2 ^ n : Nat) : Int) := by push_cast; ring
  obtain ⟨k, hk⟩ : ∃ k, 2 ^ n = k + 1 := ⟨2 ^ n - 1, by have := Nat.two_pow_pos n; omega⟩
  cases v with
  | ofNat m =>
      rw [h2]
      show Int.shiftRight (Int.ofNat m) n = _
      rw [Int.shiftRight]
      cases m with
      | zero => simp [Int.fdiv, Nat.shiftRight_eq_div_pow]
      | succ l =>
          show (Int.ofNat ((l + 1) >>> n)) = Int.fdiv (Int.ofNat (l + 1)) (Int.ofNat (2 ^ n))
          rw [hk]
          show (Int.ofNat ((l + 1) >>> n)) = Int.ofNat ((l + 1) / (k + 1))
          rw [Nat.shiftRight_eq_div_pow, hk]
  | negSucc m =>
      rw [h2]
      show Int.shiftRight (Int.negSucc m) n = _
      rw [Int.shiftRight, hk]
      show Int.negSucc (m >>> n) = Int.negSucc (m / (k + 1))
      rw [Nat.shiftRight_eq_div_pow, hk]

lemma to_int16_bounds (v : Int) : -32768 ≤ to_int16 v ∧ to_int16 v < 32768 := by
  have h1 : 0 ≤ v % 65536 := Int.emod_nonneg v (by norm_num)
  have h2 : v % 65536 < 65536 := Int.emod_lt_of_pos v (by norm_num)
  simp only [to_int16]
  split <;> omega

/-- Claim C5: every accepted raw sample is appended (at the current
fill index) as the arithmetic right shift of the raw value by 14 bits
— floor division by 2^14 — truncated two's-complement style to a
16-bit value in `[-32768, 32768)`. -/
theorem C5_downshift_is_shift14 (s : CapState) (raw : Int) :
    (cap_step s raw).buf s.idx = to_int16 (Int.fdiv raw ((2 : Int) ^ 14)) ∧
    -32768 ≤ (cap_step s raw).buf s.idx ∧ (cap_step s raw).buf s.idx < 32768 := by
  have hbuf : (cap_step s raw).buf s.idx = convert_sample raw := by
    simp only [cap_step, cap_stepE]
    split <;> simp
  rw [hbuf]
  have e : convert_sample raw = to_int16 (Int.fdiv raw ((2 : Int) ^ 14)) := by
    unfold convert_sample
    rw [int_shiftRight_eq_fdiv]
  exact ⟨e, e ▸ (to_int16_bounds _)⟩

/-! ## Inference / render cycle (`inference_task`, lines 300-451)

Score floats and the fps value are modelled over `ℚ`; the branch
structure (label match, `anomaly_score > normal_score`, the failure
`continue`, the unguarded fps division, the 10-second report window)
follows the source line by line. -/

/-- `perf_metrics` (lines 71-80). -/
structure performance_metrics where
  audio_capture_us : Int
  inference_us : Int
  display_update_us : Int
  total_cycle_us : Int
  fps : ℚ
  inference_count : Nat
deriving DecidableEq

/-- The zero-initialised `perf_metrics` (line 80). -/
def metrics0 : performance_metrics := ⟨0, 0, 0, 0, 0, 0⟩

/-- Score extraction loop (lines 349-358): exact string matches
against `normal`/`Normal` and `abnormal`/`Abnormal`; unmatched labels
leave the scores at 0. -/
def extract_scores (cls : List (String × ℚ)) : ℚ × ℚ :=
  cls.foldl (fun acc lv =>
    if lv.1 = "normal" ∨ lv.1 = "Normal" then (lv.2, acc.2)
    else if lv.1 = "abnormal" ∨ lv.1 = "Abnormal" then (acc.1, lv.2)
    else acc) (0, 0)

/-- The decision branch (lines 374-388): the string drawn on the
display. -/
def result_text (normal_score anomaly_score : ℚ) : String :=
  if normal_score < anomaly_score then "ANOMALY!" else "NORMAL"

/-- Claim C2: the displayed state is `ANOMALY!` exactly when the
extracted abnormal score is strictly greater than the normal score;
equal scores display `NORMAL`. -/
theorem C2_decision_rule (cls : List (String × ℚ)) :
    (result_text (extract_scores cls).1 (extract_scores cls).2 = "ANOMALY!"
        ↔ (extract_scores cls).1 < (extract_scores cls).2) ∧
    ((extract_scores cls).1 = (extract_scores cls).2 →
      result_text (extract_scores cls).1 (extract_scores cls).2 = "NORMAL") := by
  by_cases hlt : (extract_scores cls).1 < (extract_scores cls).2
  · have ht : result_text (extract_scores cls).1 (extract_scores cls).2 = "ANOMALY!" := by
      unfold result_text
      rw [if_pos hlt]
    exact ⟨⟨fun _ => hlt, fun _ => ht⟩,
      fun heq => absurd hlt (by rw [heq]; exact lt_irrefl _)⟩
  · have ht : result_text (extract_scores cls).1 (extract_scores cls).2 = "NORMAL" := by
      unfold result_text
      rw [if_neg hlt]
    refine ⟨⟨fun habs => ?_, fun h => absurd h hlt⟩, fun _ => ht⟩
    rw [ht] at habs
    exact absurd habs (by decide)

/-- One inference cycle after the window is claimed (lines 320-408):
`inference_us` is recorded (line 338) before the failure check
(line 340); on failure the cycle is abandoned (`continue`) with no
render; on success the display phase runs and `display_update_us`,
`total_cycle_us`, `inference_count` and `fps` are updated.  The
returned `Bool` records whether the render/display phase ran. -/
def run_cycle (m : performance_metrics) (classifier_ok : Bool)
    (cycle_start inf_start inf_end disp_start disp_end cycle_end : Int) :
    performance_metrics × Bool :=
  let m1 := { m with inference_us := inf_end - inf_start }
  if classifier_ok then
    let total := cycle_end - cycle_start
    ({ m1 with display_update_us := disp_end - disp_start,
               total_cycle_us := total,
               inference_count := m1.inference_count + 1,
               fps := 1000000 / (total : ℚ) }, true)
  else (m1, false)

/-- Counterexample to claim C4 as stated: on a failed classifier
invocation with a nonzero measured inference time, the Performance
Metrics field `inference_us` (a per-phase duration) IS updated — it
becomes 5 where it was 0 — even though the cycle is abandoned. -/
theorem C4_counterexample :
    (run_cycle metrics0 false 0 0 5 0 0 0).1.inference_us = 5 ∧
    metrics0.inference_us = 0 ∧
    (run_cycle metrics0 false 0 0 5 0 0 0).2 = false :=
  ⟨rfl, rfl, rfl⟩

/-- Claim C4 (amended): on classifier failure the cycle is abandoned —
no render/display phase runs and the inference counter, display
duration, total duration, throughput and capture duration are all left
unchanged — but the inference-phase duration, recorded before the
failure check, is updated even for the failed cycle. -/
theorem C4_failure_abandons_cycle (m : performance_metrics)
    (cycle_start inf_start inf_end disp_start disp_end cycle_end : Int) :
    (run_cycle m false cycle_start inf_start inf_end disp_start disp_end cycle_end).2 = false ∧
    (run_cycle m false cycle_start inf_start inf_end disp_start disp_end cycle_end).1.inference_count
      = m.inference_count ∧
    (run_cycle m false cycle_start inf_start inf_end disp_start disp_end cycle_end).1.display_update_us
      = m.display_update_us ∧
    (run_cycle m false cycle_start inf_start inf_end disp_start disp_end cycle_end).1.total_cycle_us
      = m.total_cycle_us ∧
    (run_cycle m false cycle_start inf_start inf_end disp_start disp_end cycle_end).1.fps = m.fps ∧
    (run_cycle m false cycle_start inf_start inf_end disp_start disp_end cycle_end).1.audio_capture_us
      = m.audio_capture_us ∧
    (run_cycle m false cycle_start inf_start inf_end disp_start disp_end cycle_end).1.inference_us
      = inf_end - inf_start :=
  ⟨rfl, rfl, rfl, rfl, rfl, rfl, rfl⟩

/-- Division as a partial operation: `none` signals that a division by
zero was attempted. -/
def checked_div (a b : ℚ) : Option ℚ := if b = 0 then none else some (a / b)

/-- The throughput derivation of line 408
(`fps = 1000000.0f / total_cycle_us`): the source divides by the total
cycle duration unconditionally — there is no clamp or guard. -/
def fps_calc (total_cycle_us : Int) : Option ℚ :=
  checked_div 1000000 ((total_cycle_us : Int) : ℚ)

/-- Counterexample to claim C8 as stated: at a total cycle duration of
0 the unguarded derivation divides by zero (`none`); no clamp/guard
prevents it. -/
theorem C8_counterexample : fps_calc 0 = none := by
  unfold fps_calc checked_div
  rw [if_pos]
  norm_num

/-- Claim C8 (amended): the instantaneous throughput is derived as
1,000,000 / total_cycle_us with no guard; for every nonzero total the
division is well defined and matches the metrics update, while a total
of 0 divides by zero (see the counterexample). -/
theorem C8_fps_derivation (m : performance_metrics)
    (cycle_start inf_start inf_end disp_start disp_end cycle_end : Int)
    (h : cycle_end - cycle_start ≠ 0) :
    (run_cycle m true cycle_start inf_start inf_end disp_start disp_end cycle_end).1.fps
      = 1000000 / ((cycle_end - cycle_start : Int) : ℚ) ∧
    fps_calc (cycle_end - cycle_start)
      = some ((run_cycle m true cycle_start inf_start inf_end disp_start disp_end cycle_end).1.fps) := by
  have hq : ((cycle_end - cycle_start : Int) : ℚ) ≠ 0 := Int.cast_ne_zero.mpr h
  refine ⟨rfl, ?_⟩
  unfold fps_calc checked_div
  rw [if_neg hq]
  rfl

/-- Witness for C8 (amended) at a 2-microsecond total cycle. -/
theorem C8_fps_derivation_witness :
    (run_cycle metrics0 true 0 0 5 0 0 2).1.fps = 1000000 / (((2 : Int) - 0 : Int) : ℚ) ∧
    fps_calc ((2 : Int) - 0)
      = some ((run_cycle metrics0 true 0 0 5 0 0 2).1.fps) :=
  C8_fps_derivation metrics0 0 0 5 0 0 2 (by decide)

/-- The 10-second summary block (lines 431-445): fire when
`current_time - last_report_time >= 10000000`; firing resets only the
report-window timestamp; the metrics record is read, never written. -/
def report_block (last_report now : Int) (m : performance_metrics) :
    Int × performance_metrics × Bool :=
  if 10000000 ≤ now - last_report then (now, m, true) else (last_report, m, false)

/-- The summary instants over successive cycle-end check times. -/
def report_fires (last_report : Int) : List Int → List Int
  | [] => []
  | t :: ts =>
      if 10000000 ≤ t - last_report then t :: report_fires t ts
      else report_fires last_report ts

lemma report_fires_chain (ts : List Int) (last : Int) :
    List.Chain (fun a b => 10000000 ≤ b - a) last (report_fires last ts) := by
  induction ts generalizing last with
  | nil => exact List.Chain.nil
  | cons t ts ih =>
      show List.Chain _ last
        (if 10000000 ≤ t - last then t :: report_fires t ts else report_fires last ts)
      by_cases hf : (10000000 : Int) ≤ t - last
      · rw [if_pos hf]
        exact List.Chain.cons hf (ih t)
      · rw [if_neg hf]
        exact ih last

/-- Claim C10: the summary fires only when at least 10 seconds
(10,000,000 µs) have elapsed since the previous summary — along any
run, consecutive summary instants are at least 10 s apart — and firing
resets only the report-window timestamp, never the metrics (in
particular not the cumulative inference counter). -/
theorem C10_report_cadence (last now : Int) (m : performance_metrics) (ts : List Int) :
    ((report_block last now m).2.2 = true ↔ 10000000 ≤ now - last) ∧
    (report_block last now m).2.1 = m ∧
    ((report_block last now m).2.2 = true → (report_block last now m).1 = now) ∧
    ((report_block last now m).2.2 = false → (report_block last now m).1 = last) ∧
    List.Chain (fun a b => 10000000 ≤ b - a) last (report_fires last ts) := by
  refine ⟨?_, ?_, ?_, ?_, report_fires_chain ts last⟩ <;>
    · unfold report_block
      by_cases hf : ((10000000 : Int) ≤ now - last)
      · simp [hf]
      · simp [hf]

/-! ## Display flush (`oled_update`, lines 180-193)

Every `i2c_master_transmit` call is modelled as the list of bytes it
sends: a command write is `[0x00, cmd]` (via `oled_write_command`,
lines 127-130) and the page data write is `0x40` followed by the 128
page bytes.  The C function returns `void` and discards the status of
every transmit (both the `oled_write_command` results and the data
transmit result), which the model mirrors by ignoring the transport
status environment. -/

/-- The transmissions issued by one `oled_update` call, in order. -/
def oled_update_msgs (buf : FB) : List (List Nat) :=
  (List.range 8).foldl (fun acc page =>
    acc ++ [[0x00, 0xB0 + page], [0x00, 0x00], [0x00, 0x10],
            0x40 :: (List.range 128).map (fun i => buf (128 * page + i))]) []

/-- `oled_update` as observed by its caller: the transmissions plus
the `void` return value.  `status` assigns each transmission the
`esp_err_t` the transport would return; the source discards every one
of them, so the model does not consult `status` at all. -/
def oled_update_model (buf : FB) (status : Nat → Int) : List (List Nat) × Unit :=
  (oled_update_msgs buf, ())

/-- Counterexample to claim C9 as stated: everything the caller of
`oled_update` can observe is identical whether every transmission
fails (`ESP_FAIL = -1`) or every transmission succeeds (`ESP_OK = 0`);
the function returns `void` and drops all transmit statuses, so a
transport-level failure is not observable by the caller. -/
theorem C9_failure_unobservable :
    oled_update_model oled_clear_buffer (fun _ => -1)
      = oled_update_model oled_clear_buffer (fun _ => 0) := rfl

/-- Claim C9 (amended): the flush transmits 32 messages — for each
page `p` from 0 to 7 in order, the three addressing commands
`0xB0+p`, `0x00`, `0x10` and then the `0x40`-prefixed 128 pixel bytes
of that page — and its caller-visible behaviour is independent of
transport failures (they are discarded, not reported). -/
theorem C9_flush_pages (buf : FB) (p : Nat) (hp : p < 8) :
    (oled_update_msgs buf).length = 32 ∧
    (oled_update_msgs buf)[4 * p]? = some [0x00, 0xB0 + p] ∧
    (oled_update_msgs buf)[4 * p + 1]? = some [0x00, 0x00] ∧
    (oled_update_msgs buf)[4 * p + 2]? = some [0x00, 0x10] ∧
    (oled_update_msgs buf)[4 * p + 3]?
      = some (0x40 :: (List.range 128).map (fun i => buf (128 * p + i))) ∧
    (∀ st st', oled_update_model buf st = oled_update_model buf st') := by
  interval_cases p <;> exact ⟨rfl, rfl, rfl, rfl, rfl, fun st st' => rfl⟩

/-- Witness for C9 (amended) at page 3 on the all-zero buffer. -/
theorem C9_flush_pages_witness :
    (oled_update_msgs oled_clear_buffer).length = 32 ∧
    (oled_update_msgs oled_clear_buffer)[4 * 3]? = some [0x00, 0xB0 + 3] ∧
    (oled_update_msgs oled_clear_buffer)[4 * 3 + 1]? = some [0x00, 0x00] ∧
    (oled_update_msgs oled_clear_buffer)[4 * 3 + 2]? = some [0x00, 0x10] ∧
    (oled_update_msgs oled_clear_buffer)[4 * 3 + 3]?
      = some (0x40 :: (List.range 128).map (fun i => oled_clear_buffer (128 * 3 + i))) ∧
    (∀ st st', oled_update_model oled_clear_buffer st = oled_update_model oled_clear_buffer st') :=
  C9_flush_pages oled_clear_buffer 3 (by decide)

/-! ## Capture / inference handoff (claim C1)

The two tasks share `inference_buffer` and `audio_ready` with no lock,
semaphore or atomic (lines 67-68, 260-298, 313-331).  The handoff is
modelled as an interleaving semantics: `capAccept` is one accepted
sample of the capture loop body (lines 280-289), `infPoll` is the
inference task observing `audio_ready` and claiming the window
(lines 314-331, `audio_ready = false`), and `infRead i` is one read of
`inference_buffer[i]` by the classifier through `signal.get_data`
(lines 324-329).  Raw input sample number `k` carries the value
`k * 2^14`, so the 16-bit value stored in the window is exactly `k`
and window provenance is visible in the read log. -/

inductive SysAct where
  | capAccept (raw : Int)
  | infPoll
  | infRead (i : Nat)

/-- Shared state of the two tasks plus the inference task's local
read log. -/
structure SysState where
  buf : Nat → Int
  idx : Nat
  ready : Bool
  claimed : Bool
  readLog : List Int

def sys_step (s : SysState) : SysAct → SysState
  | SysAct.capAccept raw =>
      let v := convert_sample raw
      let buf' := fun n => if n = s.idx then v else s.buf n
      let idx' := s.idx + 1
      if EI_CLASSIFIER_RAW_SAMPLE_COUNT ≤ idx' then
        { s with buf := buf', idx := 0, ready := true }
      else
        { s with buf := buf', idx := idx' }
  | SysAct.infPoll =>
      if s.ready then { s with ready := false, claimed := true } else s
  | SysAct.infRead i =>
      if s.claimed then { s with readLog := s.readLog ++ [s.buf i] } else s

def sys_run (s : SysState) (acts : List SysAct) : SysState := acts.foldl sys_step s

def sys_init : SysState := ⟨fun _ => 0, 0, false, false, []⟩

/-- `convert_sample` of `m * 2^14` is `m` while `m` fits in an
`int16_t`. -/
lemma convert_sample_mul (m : Int) (h0 : 0 ≤ m) (h1 : m < 32768) :
    convert_sample (m * 16384) = m := by
  unfold convert_sample
  rw [int_shiftRight_eq_fdiv, show ((2 : Int) ^ 14) = 16384 by norm_num,
    Int.mul_fdiv_cancel _ (by norm_num)]
  simp only [to_int16]
  have he : m % 65536 = m := Int.emod_eq_of_lt h0 (by omega)
  rw [he, if_pos (by omega)]

def fillActs (n : Nat) : List SysAct :=
  (List.range n).map (fun k => SysAct.capAccept (((k + 1 : Nat) : Int) * 16384))

/-- The first full capture window: 416 accepted samples carrying
values 1..416. -/
def c1_window1 : List SysAct := fillActs 416

lemma sys_run_append (s : SysState) (l1 l2 : List SysAct) :
    sys_run s (l1 ++ l2) = sys_run (sys_run s l1) l2 := by
  unfold sys_run
  rw [List.foldl_append]

lemma sys_run_singleton (s : SysState) (a : SysAct) :
    sys_run s [a] = sys_step s a := rfl

lemma sys_run_pair (s : SysState) (a b : SysAct) :
    sys_run s [a, b] = sys_step (sys_step s a) b := rfl

lemma sys_step_capAccept_small (s : SysState) (raw : Int) (h : s.idx + 1 < 416) :
    sys_step s (SysAct.capAccept raw)
      = { buf := fun n => if n = s.idx then convert_sample raw else s.buf n,
          idx := s.idx + 1, ready := s.ready, claimed := s.claimed,
          readLog := s.readLog } := by
  simp only [sys_step, EI_CLASSIFIER_RAW_SAMPLE_COUNT]
  rw [if_neg (by omega)]

lemma sys_step_capAccept_full (s : SysState) (raw : Int) (h : s.idx + 1 = 416) :
    sys_step s (SysAct.capAccept raw)
      = { buf := fun n => if n = s.idx then convert_sample raw else s.buf n,
          idx := 0, ready := true, claimed := s.claimed,
          readLog := s.readLog } := by
  simp only [sys_step, EI_CLASSIFIER_RAW_SAMPLE_COUNT]
  rw [if_pos (by omega)]

lemma sys_step_infPoll_of_ready (s : SysState) (h : s.ready = true) :
    sys_step s SysAct.infPoll
      = { buf := s.buf, idx := s.idx, ready := false, claimed := true,
          readLog := s.readLog } := by
  simp only [sys_step]
  rw [if_pos h]

lemma sys_step_infRead_of_claimed (s : SysState) (i : Nat) (h : s.claimed = true) :
    sys_step s (SysAct.infRead i)
      = { buf := s.buf, idx := s.idx, ready := s.ready, claimed := s.claimed,
          readLog := s.readLog ++ [s.buf i] } := by
  simp only [sys_step]
  rw [if_pos h]

/-- State after the first `n ≤ 416` accepted samples: the window
prefix holds 1..n, the flag is raised exactly at `n = 416`, nothing
has been claimed or read. -/
lemma fill_prefix (n : Nat) (hn : n ≤ 416) :
    (sys_run sys_init (fillActs n)).idx = n % 416 ∧
    (sys_run sys_init (fillActs n)).ready = decide (n = 416) ∧
    (sys_run sys_init (fillActs n)).claimed = false ∧
    (sys_run sys_init (fillActs n)).readLog = [] ∧
    ∀ j, (sys_run sys_init (fillActs n)).buf j
      = if j < n then ((j + 1 : Nat) : Int) else 0 := by
  induction n with
  | zero =>
      refine ⟨rfl, rfl, rfl, rfl, fun j => ?_⟩
      simp [fillActs, sys_run, sys_init]
  | succ n ih =>
      have hlt : n < 416 := by omega
      obtain ⟨hidx, hready, hclaimed, hlog, hbuf⟩ := ih (by omega)
      have hidxn : (sys_run sys_init (fillActs n)).idx = n := by
        rw [hidx]
        omega
      have hacts : fillActs (n + 1)
          = fillActs n ++ [SysAct.capAccept (((n + 1 : Nat) : Int) * 16384)] := by
        unfold fillActs
        rw [List.range_succ, List.map_append]
        rfl
      have hrun : sys_run sys_init (fillActs (n + 1))
          = sys_step (sys_run sys_init (fillActs n))
              (SysAct.capAccept (((n + 1 : Nat) : Int) * 16384)) := by
        rw [hacts, sys_run_append]
        rfl
      have hconv : convert_sample (((n + 1 : Nat) : Int) * 16384) = ((n + 1 : Nat) : Int) :=
        convert_sample_mul _ (by positivity) (by omega)
      by_cases hfull : n + 1 = 416
      · rw [hrun, sys_step_capAccept_full _ _ (by rw [hidxn]; omega)]
        refine ⟨?_, ?_, ?_, ?_, fun j => ?_⟩
        · show 0 = (n + 1) % 416
          omega
        · show true = decide (n + 1 = 416)
          rw [hfull]
          decide
        · exact hclaimed
        · exact hlog
        · show (if j = (sys_run sys_init (fillActs n)).idx
              then convert_sample (((n + 1 : Nat) : Int) * 16384)
              else (sys_run sys_init (fillActs n)).buf j)
            = if j < n + 1 then ((j + 1 : Nat) : Int) else 0
          rw [hidxn, hconv]
          by_cases hj : j = n
          · rw [if_pos hj, if_pos (by omega), hj]
          · rw [if_neg hj, hbuf j]
            by_cases hjn : j < n
            · rw [if_pos hjn, if_pos (by omega)]
            · rw [if_neg hjn, if_neg (by omega)]
      · rw [hrun, sys_step_capAccept_small _ _ (by rw [hidxn]; omega)]
        refine ⟨?_, ?_, ?_, ?_, fun j => ?_⟩
        · show (sys_run sys_init (fillActs n)).idx + 1 = (n + 1) % 416
          rw [hidxn]
          omega
        · show (sys_run sys_init (fillActs n)).ready = decide (n + 1 = 416)
          rw [hready, decide_eq_false (by omega : ¬ n = 416), decide_eq_false hfull]
        · exact hclaimed
        · exact hlog
        · show (if j = (sys_run sys_init (fillActs n)).idx
              then convert_sample (((n + 1 : Nat) : Int) * 16384)
              else (sys_run sys_init (fillActs n)).buf j)
            = if j < n + 1 then ((j + 1 : Nat) : Int) else 0
          rw [hidxn, hconv]
          by_cases hj : j = n
          · rw [if_pos hj, if_pos (by omega), hj]
          · rw [if_neg hj, hbuf j]
            by_cases hjn : j < n
            · rw [if_pos hjn, if_pos (by omega)]
            · rw [if_neg hjn, if_neg (by omega)]

/-- Claiming and then reading index 0 from a ready window returns the
current content of `buf 0`. -/
lemma poll_read (t : SysState) (hr : t.ready = true) (hc : t.claimed = false)
    (hl : t.readLog = []) (hv : t.buf 0 = 417) :
    (sys_step (sys_step t SysAct.infPoll) (SysAct.infRead 0)).readLog = [417] := by
  rw [sys_step_infPoll_of_ready t hr, sys_step_infRead_of_claimed _ 0 rfl]
  show t.readLog ++ [t.buf 0] = [417]
  rw [hl, hv]
  rfl

/-- From any state with the window just handed off (`idx = 0`,
`ready = true`, unclaimed, empty read log), one more accepted sample
followed by the inference task claiming and reading index 0 yields a
read of the overwriting sample 417. -/
lemma after_overwrite (s : SysState) (hidx : s.idx = 0) (hready : s.ready = true)
    (hclaimed : s.claimed = false) (hlog : s.readLog = []) :
    (sys_step s (SysAct.capAccept (417 * 16384))).ready = true ∧
    (sys_step s (SysAct.capAccept (417 * 16384))).claimed = false ∧
    (sys_step s (SysAct.capAccept (417 * 16384))).buf 0 = 417 ∧
    (sys_step (sys_step (sys_step s (SysAct.capAccept (417 * 16384))) SysAct.infPoll)
        (SysAct.infRead 0)).readLog = [417] := by
  have hconv417 : convert_sample (417 * 16384) = 417 :=
    convert_sample_mul 417 (by norm_num) (by norm_num)
  rw [sys_step_capAccept_small s _ (by omega), hconv417]
  have hv : (if 0 = s.idx then (417 : Int) else s.buf 0) = 417 := by
    rw [hidx]
    rfl
  refine ⟨hready, hclaimed, hv, ?_⟩
  exact poll_read _ hready hclaimed hlog hv

/-- Claim C1 is violated by the code: after the 416th accepted sample
the window is marked ready (`ready = true`) with `buf 0 = 1`, and the
inference task has not yet consumed it (`claimed = false`); one more
accepted sample — a realizable interleaving, since nothing blocks the
capture task — overwrites `buf 0` with 417 while the window is still
handed off and unconsumed; when the inference task then claims and
reads index 0 it reads 417, a sample of the *next* window, not the
fully-written window that was handed off. -/
theorem C1_handoff_race :
    (sys_run sys_init c1_window1).ready = true ∧
    (sys_run sys_init c1_window1).claimed = false ∧
    (sys_run sys_init c1_window1).buf 0 = 1 ∧
    (sys_run sys_init (c1_window1 ++ [SysAct.capAccept (417 * 16384)])).ready = true ∧
    (sys_run sys_init (c1_window1 ++ [SysAct.capAccept (417 * 16384)])).claimed = false ∧
    (sys_run sys_init (c1_window1 ++ [SysAct.capAccept (417 * 16384)])).buf 0 = 417 ∧
    (sys_run sys_init (c1_window1 ++
        [SysAct.capAccept (417 * 16384), SysAct.infPoll, SysAct.infRead 0])).readLog
      = [417] := by
  have hwin : c1_window1 = fillActs 416 := rfl
  obtain ⟨hidx, hready, hclaimed, hlog, hbuf⟩ := fill_prefix 416 (le_refl _)
  rw [← hwin] at hidx hready hclaimed hlog hbuf
  have hidx' : (sys_run sys_init c1_window1).idx = 0 := by
    rw [hidx]
  have hready' : (sys_run sys_init c1_window1).ready = true := by
    rw [hready]
    decide
  have hbuf0 : (sys_run sys_init c1_window1).buf 0 = 1 := by
    rw [hbuf 0]
    norm_num
  obtain ⟨h4, h5, h6, h7⟩ :=
    after_overwrite (sys_run sys_init c1_window1) hidx' hready' hclaimed hlog
  have hstep2 : sys_run sys_init (c1_window1 ++ [SysAct.capAccept (417 * 16384)])
      = sys_step (sys_run sys_init c1_window1) (SysAct.capAccept (417 * 16384)) := by
    rw [sys_run_append, sys_run_singleton]
  have hstep4 : sys_run sys_init (c1_window1 ++
        [SysAct.capAccept (417 * 16384), SysAct.infPoll, SysAct.infRead 0])
      = sys_step (sys_step (sys_step (sys_run sys_init c1_window1)
          (SysAct.capAccept (417 * 16384))) SysAct.infPoll) (SysAct.infRead 0) := by
    rw [show c1_window1 ++
          [SysAct.capAccept (417 * 16384), SysAct.infPoll, SysAct.infRead 0]
        = (c1_window1 ++ [SysAct.capAccept (417 * 16384)])
            ++ [SysAct.infPoll, SysAct.infRead 0] by simp, sys_run_append, hstep2,
      sys_run_pair]
  exact ⟨hready', hclaimed, hbuf0, hstep2 ▸ h4, hstep2 ▸ h5, hstep2 ▸ h6, hstep4 ▸ h7⟩
